import Mathlib

/-!
Verification development for the MTG Final Fantasy collection tracker.

The definitions below are a shallow embedding of the TypeScript sources:
`CollectionService` (the ownership ledger over browser local storage),
`FilterService` (the four-stage filter pipeline), and the sorting and
statistics getters of the card-list component.  JavaScript numbers that can
be `NaN` are modelled as `Option ℚ` (with `none` standing for `NaN`);
ordinary numeric values are modelled as `ℚ`.  The mutable in-place array of
the ledger is modelled as a `List` that each operation transforms.
-/

namespace MtgFF

/-- Embedding of the `OwnedCardInfo` interface of `collection.service.ts`:
one ledger record.  The optional `wanted?` field is modelled as a `Bool`
(`undefined` behaves as `false` in every read of the source). -/
structure OwnedCardInfo where
  cardId : String
  normalQty : ℚ
  foilQty : ℚ
  wanted : Bool
deriving DecidableEq, Repr

/-- Embedding of the `MtgCard` model (`mtg-card.model.ts`).  Absent prices
(`null`) are `none`. -/
structure MtgCard where
  id : String
  name : String
  collectorNumber : String
  rarity : String
  imageUrl : String
  hasNonFoil : Bool
  hasFoil : Bool
  eurPriceNonFoil : Option ℚ
  eurPriceFoil : Option ℚ
deriving DecidableEq, Repr

/-- A JavaScript number that may be `NaN` (`none`). -/
abbrev JsNum := Option ℚ

/-- Embedding of the idiom `x || 0`: `NaN` (and `0` itself) give `0`,
every other number is returned unchanged. -/
def jsOrZero (x : JsNum) : ℚ :=
  x.getD 0

/-- Embedding of `Math.max(0, x || 0)`, the quantity clamp used by
`setCardQuantities` and `replaceAll`. -/
def jsClamp (x : JsNum) : ℚ :=
  max 0 (jsOrZero x)

/-- Embedding of `CollectionService.getAll` (the ledger snapshot). -/
def getAll (col : List OwnedCardInfo) : List OwnedCardInfo :=
  col

/-- Embedding of `CollectionService.getCard`: first record whose `cardId`
matches, as `Array.prototype.find` returns the first hit. -/
def getCard (col : List OwnedCardInfo) (cardId : String) : Option OwnedCardInfo :=
  col.find? (fun c => c.cardId == cardId)

/-- Embedding of `CollectionService.getNormalQty`. -/
def getNormalQty (col : List OwnedCardInfo) (cardId : String) : ℚ :=
  ((getCard col cardId).map (fun c => c.normalQty)).getD 0

/-- Embedding of `CollectionService.getFoilQty`. -/
def getFoilQty (col : List OwnedCardInfo) (cardId : String) : ℚ :=
  ((getCard col cardId).map (fun c => c.foilQty)).getD 0

/-- Embedding of `CollectionService.isWanted`. -/
def isWanted (col : List OwnedCardInfo) (cardId : String) : Bool :=
  ((getCard col cardId).map (fun c => c.wanted)).getD false

/-- Core recursion of `setCardQuantities` once the two quantities have been
clamped: the first record matching `cardId` is updated in place (and removed
when it reaches `(0, 0, wanted = false)`); when no record matches, a new one
is pushed at the end unless both quantities are `0`. -/
def setCardQuantitiesGo (cardId : String) (n f : ℚ) : List OwnedCardInfo → List OwnedCardInfo
  | [] => if n = 0 ∧ f = 0 then [] else [⟨cardId, n, f, false⟩]
  | c :: rest =>
    if c.cardId == cardId then
      if n = 0 ∧ f = 0 ∧ c.wanted = false then rest
      else ⟨c.cardId, n, f, c.wanted⟩ :: rest
    else
      c :: setCardQuantitiesGo cardId n f rest

/-- Embedding of `CollectionService.setCardQuantities`. -/
def setCardQuantities (col : List OwnedCardInfo) (cardId : String)
    (normalQty foilQty : JsNum) : List OwnedCardInfo :=
  setCardQuantitiesGo cardId (jsClamp normalQty) (jsClamp foilQty) col

/-- Embedding of `CollectionService.toggleWanted`: flips the flag of the
first matching record (pruning it when it lands on `(0, 0, false)`); when no
record matches, a fresh `(0, 0, wanted = true)` record is pushed at the end. -/
def toggleWanted (col : List OwnedCardInfo) (cardId : String) : List OwnedCardInfo :=
  match col with
  | [] => [⟨cardId, 0, 0, true⟩]
  | c :: rest =>
    if c.cardId == cardId then
      if c.wanted = true ∧ c.normalQty = 0 ∧ c.foilQty = 0 then rest
      else ⟨c.cardId, c.normalQty, c.foilQty, !c.wanted⟩ :: rest
    else
      c :: toggleWanted rest cardId

/-- One element of the raw JSON array handed to `replaceAll`, after the
JavaScript coercions are applied: `isObject` is the result of
`item && typeof item === 'object'`, `cardId` is `some s` exactly when
`item.cardId` is the string `s`, the quantities are the results of
`Number(...)` (`none` for `NaN`), and `wanted` is `!!item.wanted`. -/
structure RawEntry where
  isObject : Bool
  cardId : Option String
  normalQty : JsNum
  foilQty : JsNum
  wanted : Bool
deriving DecidableEq, Repr

/-- The top-level JSON value handed to `replaceAll`: either some non-array
value, or an array of raw entries. -/
inductive ImportData where
  | notArray : ImportData
  | arr : List RawEntry → ImportData
deriving DecidableEq, Repr

/-- The per-entry sanitisation loop body of `replaceAll`: skips non-objects,
skips entries whose `cardId` is not a truthy string (so the empty string is
skipped too), clamps the quantities, and silently drops entries that land on
`(0, 0, wanted = false)`. -/
def sanitizeEntry (e : RawEntry) : Option OwnedCardInfo :=
  if e.isObject = false then none
  else
    match e.cardId with
    | none => none
    | some cid =>
      if cid == "" then none
      else if jsClamp e.normalQty = 0 ∧ jsClamp e.foilQty = 0 ∧ e.wanted = false then none
      else some ⟨cid, jsClamp e.normalQty, jsClamp e.foilQty, e.wanted⟩

/-- Embedding of `CollectionService.replaceAll`: throws on a non-array top
level, otherwise returns the sanitised array that replaces the ledger. -/
def replaceAll (data : ImportData) : Except String (List OwnedCardInfo) :=
  match data with
  | ImportData.notArray => Except.error "El JSON importado no es un array valido."
  | ImportData.arr entries => Except.ok (entries.filterMap sanitizeEntry)

/-- The effect of a `replaceAll` call on the ledger, as observed by the
caller (`onImportFileSelected` catches the thrown error, and the service
throws before any write): on error the ledger is left untouched. -/
def runReplaceAll (col : List OwnedCardInfo) (data : ImportData) : List OwnedCardInfo :=
  match replaceAll data with
  | Except.error _ => col
  | Except.ok cleaned => cleaned

/-- How an existing ledger record looks when fed back into `replaceAll`
(this is what `replaceAll(getAll())` passes per entry): a genuine object
with a string `cardId`, numeric quantities and a boolean `wanted`. -/
def toRaw (c : OwnedCardInfo) : RawEntry :=
  ⟨true, some c.cardId, some c.normalQty, some c.foilQty, c.wanted⟩

/-- The three mutating operations of the collection store. -/
inductive Op where
  | set : String → JsNum → JsNum → Op
  | toggle : String → Op
  | replace : ImportData → Op
deriving DecidableEq, Repr

/-- Applies one store operation to the ledger. -/
def applyOp (col : List OwnedCardInfo) : Op → List OwnedCardInfo
  | Op.set cardId n f => setCardQuantities col cardId n f
  | Op.toggle cardId => toggleWanted col cardId
  | Op.replace d => runReplaceAll col d

/-- The ledger states reachable from the initial empty storage through the
store operations. -/
inductive Reachable : List OwnedCardInfo → Prop where
  | init : Reachable []
  | step (col : List OwnedCardInfo) (op : Op) (h : Reachable col) :
      Reachable (applyOp col op)

/-- The pruning invariant: no persisted record has both quantities `0` and
`wanted = false`. -/
def Pruned (col : List OwnedCardInfo) : Prop :=
  ∀ c ∈ col, ¬(c.normalQty = 0 ∧ c.foilQty = 0 ∧ c.wanted = false)

/-- The uniqueness invariant: pairwise distinct `cardId`s. -/
def NodupIds (col : List OwnedCardInfo) : Prop :=
  col.Pairwise (fun a b => a.cardId ≠ b.cardId)

instance (col : List OwnedCardInfo) : Decidable (Pruned col) := by
  unfold Pruned
  infer_instance

instance (col : List OwnedCardInfo) : Decidable (NodupIds col) := by
  unfold NodupIds
  infer_instance

/-- Removing the records that violate the pruning invariant. -/
def pruneList (col : List OwnedCardInfo) : List OwnedCardInfo :=
  col.filter (fun c => !(c.normalQty == 0 && c.foilQty == 0 && !c.wanted))

/-- Embedding of the `RarityFilter` union type of `filter.service.ts`. -/
inductive RarityFilter where
  | all | common | uncommon | rare | mythic
deriving DecidableEq, Repr

/-- Embedding of the `OwnershipFilter` union type. -/
inductive OwnershipFilter where
  | all | owned | missing | foilOwned | wanted
deriving DecidableEq, Repr

/-- Embedding of the `PrintFilter` union type. -/
inductive PrintFilter where
  | all | hasFoil | hasNonFoil
deriving DecidableEq, Repr

/-- The string value of a rarity filter, as compared against
`card.rarity` by `===` in the source. -/
def rarityStr : RarityFilter → String
  | RarityFilter.all => "all"
  | RarityFilter.common => "common"
  | RarityFilter.uncommon => "uncommon"
  | RarityFilter.rare => "rare"
  | RarityFilter.mythic => "mythic"

/-- Embedding of the `FilterCriteria` interface. -/
structure FilterCriteria where
  searchTerm : String
  rarity : RarityFilter
  ownership : OwnershipFilter
  print : PrintFilter
deriving DecidableEq, Repr

/-- The record returned by the ownership-lookup callback handed to
`filterCards`. -/
structure OwnershipInfo where
  isOwned : Bool
  isFoilOwned : Bool
  isWanted : Bool
deriving DecidableEq, Repr

/-- Embedding of `String.prototype.toLowerCase` (restricted to the ASCII
case mapping), written structurally over the character list. -/
def jsToLower (s : String) : String :=
  ⟨s.data.map Char.toLower⟩

/-- Embedding of `String.prototype.trim`: strips leading and trailing
whitespace, written structurally over the character list. -/
def jsTrim (s : String) : String :=
  ⟨((s.data.dropWhile Char.isWhitespace).reverse.dropWhile Char.isWhitespace).reverse⟩

/-- Embedding of `String.prototype.includes`: `strIncludes hay needle` is
true when `needle` occurs as a contiguous substring of `hay`. -/
def strIncludes (hay needle : String) : Bool :=
  go hay.toList
where
  go : List Char → Bool
    | [] => needle.toList.isEmpty
    | c :: rest => needle.toList.isPrefixOf (c :: rest) || go rest

/-- Embedding of `FilterService.filterBySearchTerm`: case-insensitive
substring match on the card name; a blank term matches everything. -/
def filterBySearchTerm (cards : List MtgCard) (searchTerm : String) : List MtgCard :=
  let term := jsToLower (jsTrim searchTerm)
  if term == "" then cards
  else cards.filter (fun card => strIncludes (jsToLower card.name) term)

/-- Embedding of `FilterService.filterByRarity`. -/
def filterByRarity (cards : List MtgCard) (rarity : RarityFilter) : List MtgCard :=
  if rarity = RarityFilter.all then cards
  else cards.filter (fun card => card.rarity == rarityStr rarity)

/-- Embedding of `FilterService.filterByOwnership` (the `switch` inside the
filter callback, with the unreachable `default: return true`). -/
def filterByOwnership (cards : List MtgCard) (ownership : OwnershipFilter)
    (getOwnershipInfo : String → OwnershipInfo) : List MtgCard :=
  if ownership = OwnershipFilter.all then cards
  else
    cards.filter (fun card =>
      let info := getOwnershipInfo card.id
      match ownership with
      | OwnershipFilter.owned => info.isOwned
      | OwnershipFilter.missing => !info.isOwned
      | OwnershipFilter.foilOwned => info.isFoilOwned
      | OwnershipFilter.wanted => info.isWanted
      | OwnershipFilter.all => true)

/-- Embedding of `FilterService.filterByPrint`. -/
def filterByPrint (cards : List MtgCard) (print : PrintFilter) : List MtgCard :=
  if print = PrintFilter.all then cards
  else if print = PrintFilter.hasFoil then cards.filter (fun card => card.hasFoil)
  else if print = PrintFilter.hasNonFoil then cards.filter (fun card => card.hasNonFoil)
  else cards

/-- Embedding of `FilterService.filterCards`: the four stages applied in the
source's fixed order (search, then rarity, then ownership, then print). -/
def filterCards (cards : List MtgCard) (criteria : FilterCriteria)
    (getOwnershipInfo : String → OwnershipInfo) : List MtgCard :=
  filterByPrint
    (filterByOwnership
      (filterByRarity
        (filterBySearchTerm cards criteria.searchTerm)
        criteria.rarity)
      criteria.ownership getOwnershipInfo)
    criteria.print

/-- Names for the four filter stages, used to state order-independence. -/
inductive Stage where
  | search | rarity | ownership | print
deriving DecidableEq, Repr

/-- Runs a single named filter stage. -/
def applyStage (criteria : FilterCriteria) (getOwnershipInfo : String → OwnershipInfo)
    (cards : List MtgCard) : Stage → List MtgCard
  | Stage.search => filterBySearchTerm cards criteria.searchTerm
  | Stage.rarity => filterByRarity cards criteria.rarity
  | Stage.ownership => filterByOwnership cards criteria.ownership getOwnershipInfo
  | Stage.print => filterByPrint cards criteria.print

/-- Runs the filter stages in the given order. -/
def applyStages (criteria : FilterCriteria) (getOwnershipInfo : String → OwnershipInfo)
    (order : List Stage) (cards : List MtgCard) : List MtgCard :=
  order.foldl (applyStage criteria getOwnershipInfo) cards

/-- The predicate a single stage implements on one card (the `all`
sentinel of a stage makes its predicate vacuously true). -/
def stagePred (criteria : FilterCriteria) (getOwnershipInfo : String → OwnershipInfo) :
    Stage → MtgCard → Bool
  | Stage.search, card =>
    let term := jsToLower (jsTrim criteria.searchTerm)
    term == "" || strIncludes (jsToLower card.name) term
  | Stage.rarity, card =>
    criteria.rarity == RarityFilter.all || card.rarity == rarityStr criteria.rarity
  | Stage.ownership, card =>
    let info := getOwnershipInfo card.id
    criteria.ownership == OwnershipFilter.all ||
      match criteria.ownership with
      | OwnershipFilter.owned => info.isOwned
      | OwnershipFilter.missing => !info.isOwned
      | OwnershipFilter.foilOwned => info.isFoilOwned
      | OwnershipFilter.wanted => info.isWanted
      | OwnershipFilter.all => true
  | Stage.print, card =>
    criteria.print == PrintFilter.all ||
      match criteria.print with
      | PrintFilter.hasFoil => card.hasFoil
      | PrintFilter.hasNonFoil => card.hasNonFoil
      | PrintFilter.all => true

/-- One segment of a collector-number string: a maximal run of decimal
digits (kept as its numeric value) or a maximal run of non-digits. -/
inductive NToken where
  | num : ℕ → NToken
  | str : List Char → NToken
deriving DecidableEq, Repr

/-- Numeric value of a decimal digit character. -/
def digitVal (c : Char) : ℕ :=
  c.toNat - 48

/-- Three-way comparison of naturals (the primitive the collator model is
built from). -/
def cmpNat (a b : ℕ) : Ordering :=
  if a < b then Ordering.lt else if a = b then Ordering.eq else Ordering.gt

/-- The run currently being accumulated while scanning a string (non-digit
characters are accumulated in reverse). -/
inductive RunAcc where
  | num : ℕ → RunAcc
  | str : List Char → RunAcc
deriving DecidableEq, Repr

/-- Finishes the current run into a token. -/
def closeRun : RunAcc → NToken
  | RunAcc.num v => NToken.num v
  | RunAcc.str cs => NToken.str cs.reverse

/-- Starts a fresh run at a character. -/
def startRun (c : Char) : RunAcc :=
  if c.isDigit then RunAcc.num (digitVal c) else RunAcc.str [c]

/-- Splits the remaining characters into maximal digit/non-digit runs. -/
def tokenizeGo : List Char → RunAcc → List NToken
  | [], acc => [closeRun acc]
  | c :: rest, acc =>
    match acc, c.isDigit with
    | RunAcc.num v, true => tokenizeGo rest (RunAcc.num (10 * v + digitVal c))
    | RunAcc.str cs, false => tokenizeGo rest (RunAcc.str (c :: cs))
    | _, _ => closeRun acc :: tokenizeGo rest (startRun c)

/-- Splits a string into its digit/non-digit segments. -/
def tokenize (s : String) : List NToken :=
  match s.toList with
  | [] => []
  | c :: rest => tokenizeGo rest (startRun c)

/-- Lexicographic comparison of character runs by code point, a prefix
comparing less than any extension. -/
def cmpCharList : List Char → List Char → Ordering
  | [], [] => Ordering.eq
  | [], _ :: _ => Ordering.lt
  | _ :: _, [] => Ordering.gt
  | a :: as, b :: bs =>
    match cmpNat a.toNat b.toNat with
    | Ordering.eq => cmpCharList as bs
    | o => o

/-- Comparison of two segments: numeric runs compare by value, digits sort
before other characters, non-digit runs compare as character runs. -/
def cmpTok : NToken → NToken → Ordering
  | NToken.num a, NToken.num b => cmpNat a b
  | NToken.num _, NToken.str _ => Ordering.lt
  | NToken.str _, NToken.num _ => Ordering.gt
  | NToken.str a, NToken.str b => cmpCharList a b

/-- Lexicographic comparison of segment lists. -/
def cmpTokens : List NToken → List NToken → Ordering
  | [], [] => Ordering.eq
  | [], _ :: _ => Ordering.lt
  | _ :: _, [] => Ordering.gt
  | a :: as, b :: bs =>
    match cmpTok a b with
    | Ordering.eq => cmpTokens as bs
    | o => o

/-- Modelled from the spec: the sources compare collector numbers with
`localeCompare` under the `en` locale with the numeric collation option, a
primitive supplied by the JavaScript runtime rather than by this repository.
Following the spec's description, embedded integer runs compare numerically
and alphabetic runs compare as strings (digits collating before letters). -/
def localeCompareNumericEn (a b : String) : Ordering :=
  cmpTokens (tokenize a) (tokenize b)

/-- The non-strict order on cards induced by the collector-number
comparator (what a comparator-based stable sort consumes). -/
def collectorNumberLe (a b : MtgCard) : Prop :=
  localeCompareNumericEn a.collectorNumber b.collectorNumber ≠ Ordering.gt

instance : DecidableRel collectorNumberLe := fun _ _ =>
  instDecidableNot

/-- Embedding of the component's `sortCardsByCollectorNumber`, modelling
`Array.prototype.sort` (stable since ES2019) as a stable insertion sort
under the comparator's non-strict order. -/
def sortCardsByCollectorNumber (cards : List MtgCard) : List MtgCard :=
  List.insertionSort collectorNumberLe cards

/-- Embedding of the `SortBy` union type of the component. -/
inductive SortBy where
  | collectorNumber | collectorNumberDesc | nameAsc | nameDesc | priceAsc | priceDesc
deriving DecidableEq, Repr

/-- Embedding of the component's `sortCards` switch.  String names compare
by `localeCompare` (modelled as code-point order), prices by `priceNonFoil`
with an absent price as `0`. -/
def sortCards (sortBy : SortBy) (cards : List MtgCard) : List MtgCard :=
  match sortBy with
  | SortBy.collectorNumber =>
    List.insertionSort collectorNumberLe cards
  | SortBy.collectorNumberDesc =>
    List.insertionSort
      (fun a b => localeCompareNumericEn b.collectorNumber a.collectorNumber ≠ Ordering.gt) cards
  | SortBy.nameAsc =>
    List.insertionSort (fun a b => compare a.name b.name ≠ Ordering.gt) cards
  | SortBy.nameDesc =>
    List.insertionSort (fun a b => compare b.name a.name ≠ Ordering.gt) cards
  | SortBy.priceAsc =>
    List.insertionSort
      (fun a b => a.eurPriceNonFoil.getD 0 ≤ b.eurPriceNonFoil.getD 0) cards
  | SortBy.priceDesc =>
    List.insertionSort
      (fun a b => b.eurPriceNonFoil.getD 0 ≤ a.eurPriceNonFoil.getD 0) cards

/-- Embedding of the component's `shouldShowTotalFilterStats` getter. -/
def shouldShowTotalFilterStats (filterOwnership : OwnershipFilter) : Bool :=
  filterOwnership == OwnershipFilter.missing ||
    filterOwnership == OwnershipFilter.foilOwned ||
    filterOwnership == OwnershipFilter.wanted

/-- Embedding of the component's `filteredCollectionValueEur` getter, as a
function of the already-filtered card list, the ledger, and the active
ownership filter (`reduce` becomes `foldl` from `0`). -/
def filteredCollectionValueEur (filteredCards : List MtgCard)
    (col : List OwnedCardInfo) (filterOwnership : OwnershipFilter) : ℚ :=
  if shouldShowTotalFilterStats filterOwnership then
    filteredCards.foldl
      (fun sum card =>
        sum + max (card.eurPriceNonFoil.getD 0) (card.eurPriceFoil.getD 0)) 0
  else
    filteredCards.foldl
      (fun sum card =>
        sum + (getNormalQty col card.id * card.eurPriceNonFoil.getD 0 +
          getFoilQty col card.id * card.eurPriceFoil.getD 0)) 0

lemma getCard_nil (cardId : String) : getCard [] cardId = none :=
  rfl

lemma getCard_cons (c : OwnedCardInfo) (rest : List OwnedCardInfo) (cardId : String) :
    getCard (c :: rest) cardId =
      if c.cardId == cardId then some c else getCard rest cardId := by
  by_cases h : c.cardId == cardId
  · simp [getCard, List.find?_cons_of_pos, h]
  · simp only [Bool.not_eq_true] at h
    simp [getCard, List.find?_cons_of_neg, h]

lemma setCardQuantitiesGo_frame (cardId other : String) (n f : ℚ)
    (col : List OwnedCardInfo) (h : other ≠ cardId) :
    getCard (setCardQuantitiesGo cardId n f col) other = getCard col other := by
  induction col with
  | nil =>
    have hbeq : (cardId == other) = false := by
      simp [beq_eq_false_iff_ne]
      exact fun he => h he.symm
    simp only [setCardQuantitiesGo]
    split
    · rfl
    · simp [getCard_cons, hbeq]
  | cons c rest ih =>
    simp only [setCardQuantitiesGo]
    by_cases hc : c.cardId == cardId
    · have hco : (c.cardId == other) = false := by
        have : c.cardId = cardId := by simpa using hc
        simp [beq_eq_false_iff_ne, this]
        exact fun he => h he.symm
      simp only [hc, if_true]
      split
      · simp [getCard_cons, hco]
      · simp [getCard_cons, hco]
    · simp only [hc, Bool.false_eq_true, if_false]
      by_cases hco : c.cardId == other
      · simp [getCard_cons, hco]
      · simp [getCard_cons, hco, ih]

lemma toggleWanted_frame (cardId other : String) (col : List OwnedCardInfo)
    (h : other ≠ cardId) :
    getCard (toggleWanted col cardId) other = getCard col other := by
  induction col with
  | nil =>
    have hbeq : (cardId == other) = false := by
      simp [beq_eq_false_iff_ne]
      exact fun he => h he.symm
    simp [toggleWanted, getCard_cons, hbeq]
  | cons c rest ih =>
    simp only [toggleWanted]
    by_cases hc : c.cardId == cardId
    · have hco : (c.cardId == other) = false := by
        have : c.cardId = cardId := by simpa using hc
        simp [beq_eq_false_iff_ne, this]
        exact fun he => h he.symm
      simp only [hc, if_true]
      split
      · simp [getCard_cons, hco]
      · simp [getCard_cons, hco]
    · simp only [hc, Bool.false_eq_true, if_false]
      by_cases hco : c.cardId == other
      · simp [getCard_cons, hco]
      · simp [getCard_cons, hco, ih]

/-- C10: a mutation targeting one item never changes any other item's
record: after `setCardQuantities(id, n, f)` or `toggleWanted(id)`, the
record (or absence) observed for any other id is exactly as before. -/
theorem C10_single_item_mutations_frame (col : List OwnedCardInfo)
    (cardId other : String) (n f : JsNum) (h : other ≠ cardId) :
    getCard (setCardQuantities col cardId n f) other = getCard col other ∧
    getCard (toggleWanted col cardId) other = getCard col other :=
  ⟨setCardQuantitiesGo_frame cardId other _ _ col h,
   toggleWanted_frame cardId other col h⟩

/-- Witness for C10 at a concrete ledger: mutating "a" leaves the record of
"b" (and the absence of a record for "c") untouched. -/
theorem C10_single_item_mutations_frame_witness :
    ("b" ≠ "a") ∧
    (getCard (setCardQuantities [⟨"b", 1, 2, false⟩] "a" (some 3) (some 0)) "b" =
      getCard [⟨"b", 1, 2, false⟩] "b" ∧
     getCard (toggleWanted [⟨"b", 1, 2, false⟩] "a") "b" =
      getCard [⟨"b", 1, 2, false⟩] "b") :=
  ⟨by decide,
   C10_single_item_mutations_frame [⟨"b", 1, 2, false⟩] "a" "b" (some 3) (some 0)
     (by decide)⟩

lemma Pruned_nil : Pruned [] := by
  simp [Pruned]

lemma Pruned_cons (c : OwnedCardInfo) (rest : List OwnedCardInfo) :
    Pruned (c :: rest) ↔
      ¬(c.normalQty = 0 ∧ c.foilQty = 0 ∧ c.wanted = false) ∧ Pruned rest := by
  simp [Pruned]

lemma Pruned_setCardQuantitiesGo (cardId : String) (n f : ℚ)
    (col : List OwnedCardInfo) (h : Pruned col) :
    Pruned (setCardQuantitiesGo cardId n f col) := by
  induction col with
  | nil =>
    simp only [setCardQuantitiesGo]
    split
    · exact Pruned_nil
    · rename_i hnf
      rw [Pruned_cons]
      exact ⟨fun hc => hnf ⟨hc.1, hc.2.1⟩, Pruned_nil⟩
  | cons c rest ih =>
    rw [Pruned_cons] at h
    simp only [setCardQuantitiesGo]
    by_cases hc : c.cardId == cardId
    · simp only [hc, if_true]
      split
      · exact h.2
      · rename_i hguard
        rw [Pruned_cons]
        exact ⟨fun hcontra => hguard ⟨hcontra.1, hcontra.2.1, hcontra.2.2⟩, h.2⟩
    · simp only [hc, Bool.false_eq_true, if_false]
      rw [Pruned_cons]
      exact ⟨h.1, ih h.2⟩

lemma Pruned_toggleWanted (cardId : String) (col : List OwnedCardInfo)
    (h : Pruned col) : Pruned (toggleWanted col cardId) := by
  induction col with
  | nil =>
    simp [toggleWanted, Pruned]
  | cons c rest ih =>
    rw [Pruned_cons] at h
    simp only [toggleWanted]
    by_cases hc : c.cardId == cardId
    · simp only [hc, if_true]
      split
      · exact h.2
      · rename_i hguard
        rw [Pruned_cons]
        refine ⟨fun hcontra => ?_, h.2⟩
        obtain ⟨hn, hf, hw⟩ := hcontra
        simp only [Bool.not_eq_false'] at hw
        exact hguard ⟨by simpa using hw, hn, hf⟩
    · simp only [hc, Bool.false_eq_true, if_false]
      rw [Pruned_cons]
      exact ⟨h.1, ih h.2⟩

lemma sanitizeEntry_spec (e : RawEntry) (r : OwnedCardInfo)
    (h : sanitizeEntry e = some r) :
    e.isObject = true ∧ e.cardId = some r.cardId ∧ r.cardId ≠ "" ∧
      r.normalQty = jsClamp e.normalQty ∧ r.foilQty = jsClamp e.foilQty ∧
      r.wanted = e.wanted ∧
      ¬(r.normalQty = 0 ∧ r.foilQty = 0 ∧ r.wanted = false) := by
  unfold sanitizeEntry at h
  split at h
  · simp at h
  · rename_i hobj
    simp only [Bool.not_eq_false] at hobj
    split at h
    · simp at h
    · rename_i cid hcid
      split at h
      · simp at h
      · rename_i hne
        split at h
        · simp at h
        · rename_i hguard
          rw [Option.some_inj] at h
          subst h
          refine ⟨hobj, by simp [hcid], by simpa using hne, rfl, rfl, rfl, hguard⟩

lemma Pruned_filterMap_sanitizeEntry (entries : List RawEntry) :
    Pruned (entries.filterMap sanitizeEntry) := by
  intro r hr
  rw [List.mem_filterMap] at hr
  obtain ⟨e, _, he⟩ := hr
  exact (sanitizeEntry_spec e r he).2.2.2.2.2.2

lemma Pruned_runReplaceAll (col : List OwnedCardInfo) (d : ImportData)
    (h : Pruned col) : Pruned (runReplaceAll col d) := by
  cases d with
  | notArray => exact h
  | arr entries => exact Pruned_filterMap_sanitizeEntry entries

lemma Pruned_applyOp (col : List OwnedCardInfo) (op : Op) (h : Pruned col) :
    Pruned (applyOp col op) := by
  cases op with
  | set cardId n f => exact Pruned_setCardQuantitiesGo cardId _ _ col h
  | toggle cardId => exact Pruned_toggleWanted cardId col h
  | replace d => exact Pruned_runReplaceAll col d h

lemma reachable_pruned (col : List OwnedCardInfo) (h : Reachable col) :
    Pruned col := by
  induction h with
  | init => exact Pruned_nil
  | step col op _ ih => exact Pruned_applyOp col op ih

lemma getCard_eq_none_of_no_match (col : List OwnedCardInfo) (cardId : String)
    (h : ∀ c ∈ col, (c.cardId == cardId) = false) : getCard col cardId = none := by
  simp only [getCard, List.find?_eq_none]
  intro c hc
  simp [h c hc]

lemma setCardQuantities_zero_absent (col : List OwnedCardInfo) (cardId : String)
    (hcount : (col.filter (fun c => c.cardId == cardId)).length ≤ 1)
    (hwanted : ∀ c, getCard col cardId = some c → c.wanted = false) :
    getCard (setCardQuantities col cardId (some 0) (some 0)) cardId = none := by
  have hclamp : jsClamp (some 0) = 0 := by simp [jsClamp, jsOrZero]
  simp only [setCardQuantities, hclamp]
  induction col with
  | nil => simp [setCardQuantitiesGo, getCard_nil]
  | cons c rest ih =>
    simp only [setCardQuantitiesGo]
    by_cases hc : c.cardId == cardId
    · have hw : c.wanted = false := hwanted c (by simp [getCard_cons, hc])
      simp only [hc, if_true, hw, and_self, if_true, true_and]
      apply getCard_eq_none_of_no_match
      intro x hx
      by_contra hbx
      simp only [Bool.not_eq_false] at hbx
      have : 2 ≤ ((c :: rest).filter (fun c => c.cardId == cardId)).length := by
        simp only [List.filter_cons, hc, if_true, List.length_cons, Nat.succ_le_succ_iff]
        have hmem : x ∈ rest.filter (fun c => c.cardId == cardId) :=
          List.mem_filter.mpr ⟨hx, hbx⟩
        have hpos : 0 < (rest.filter (fun c => c.cardId == cardId)).length :=
          List.length_pos_of_mem hmem
        omega
      omega
    · simp only [hc, Bool.false_eq_true, if_false]
      rw [getCard_cons]
      simp only [hc, Bool.false_eq_true, if_false]
      apply ih
      · have := hcount
        simpa only [List.filter_cons, hc, Bool.false_eq_true, if_false] using this
      · intro x hx
        exact hwanted x (by rw [getCard_cons]; simp [hc, hx])

/-- C2: every operation applied to a reachable ledger yields a ledger with
no `(0, 0, wanted = false)` record (amended: the `setQuantities(id, 0, 0)`
corollary additionally assumes the id occurs in at most one record, which
only an import containing duplicate ids can violate). -/
theorem C2_pruning_invariant :
    (∀ col, Reachable col → ∀ op, Pruned (applyOp col op)) ∧
    (∀ (col : List OwnedCardInfo) (cardId : String),
      (col.filter (fun c => c.cardId == cardId)).length ≤ 1 →
      (∀ c, getCard col cardId = some c → c.wanted = false) →
      getCard (setCardQuantities col cardId (some 0) (some 0)) cardId = none) :=
  ⟨fun col h op => Pruned_applyOp col op (reachable_pruned col h),
   fun col cardId hcount hwanted =>
     setCardQuantities_zero_absent col cardId hcount hwanted⟩

/-- Witness for C2: from the reachable one-record ledger, any operation
preserves pruning, and zeroing the unwanted record removes it. -/
theorem C2_pruning_invariant_witness :
    (Reachable [] ∧ Pruned (applyOp [] (Op.set "a" (some 1) (some 0)))) ∧
    (([⟨"a", 1, 0, false⟩] :
        List OwnedCardInfo).filter (fun c => c.cardId == "a")).length ≤ 1 ∧
    (∀ c, getCard [⟨"a", 1, 0, false⟩] "a" = some c → c.wanted = false) ∧
    getCard (setCardQuantities [⟨"a", 1, 0, false⟩] "a" (some 0) (some 0)) "a" = none :=
  ⟨⟨Reachable.init,
    C2_pruning_invariant.1 [] Reachable.init (Op.set "a" (some 1) (some 0))⟩,
   by decide,
   fun c hc => by
     have : c = ⟨"a", 1, 0, false⟩ := by
       have h := hc
       rw [show getCard [⟨"a", 1, 0, false⟩] "a" = some ⟨"a", 1, 0, false⟩ from by decide]
         at h
       exact (Option.some_inj.mp h).symm
     rw [this],
   C2_pruning_invariant.2 [⟨"a", 1, 0, false⟩] "a" (by decide)
     (fun c hc => by
       have h := hc
       rw [show getCard [⟨"a", 1, 0, false⟩] "a" = some ⟨"a", 1, 0, false⟩ from by decide]
         at h
       rw [(Option.some_inj.mp h).symm])⟩

/-- The duplicate-id ledger produced by importing two entries that share
`cardId = "a"`. -/
def dupState : List OwnedCardInfo :=
  [⟨"a", 1, 0, false⟩, ⟨"a", 2, 0, false⟩]

/-- The import payload producing `dupState`. -/
def dupImport : ImportData :=
  ImportData.arr
    [⟨true, some "a", some 1, some 0, false⟩, ⟨true, some "a", some 2, some 0, false⟩]

lemma reachable_dupState : Reachable dupState := by
  have h := Reachable.step [] (Op.replace dupImport) Reachable.init
  have he : applyOp [] (Op.replace dupImport) = dupState := by decide
  exact he ▸ h

/-- Counterexample for C2 as stated: `dupState` is reachable (via an import
with duplicate ids), the record found for "a" has `wanted = false`, yet
`setQuantities("a", 0, 0)` leaves a record for "a" behind. -/
theorem C2_counterexample :
    Reachable dupState ∧
    getCard dupState "a" = some ⟨"a", 1, 0, false⟩ ∧
    getCard (setCardQuantities dupState "a" (some 0) (some 0)) "a" =
      some ⟨"a", 2, 0, false⟩ :=
  ⟨reachable_dupState, by decide, by decide⟩

lemma mem_setCardQuantitiesGo (cardId : String) (n f : ℚ)
    (col : List OwnedCardInfo) (x : OwnedCardInfo)
    (hx : x ∈ setCardQuantitiesGo cardId n f col) :
    x.cardId = cardId ∨ x ∈ col := by
  induction col with
  | nil =>
    simp only [setCardQuantitiesGo] at hx
    split at hx
    · simp at hx
    · simp only [List.mem_singleton] at hx
      subst hx
      exact Or.inl rfl
  | cons c rest ih =>
    simp only [setCardQuantitiesGo] at hx
    by_cases hc : c.cardId == cardId
    · simp only [hc, if_true] at hx
      split at hx
      · exact Or.inr (List.mem_cons_of_mem c hx)
      · rcases List.mem_cons.mp hx with h | h
        · subst h
          exact Or.inl (by simpa using hc)
        · exact Or.inr (List.mem_cons_of_mem c h)
    · simp only [hc, Bool.false_eq_true, if_false] at hx
      rcases List.mem_cons.mp hx with h | h
      · exact Or.inr (h ▸ List.mem_cons_self c rest)
      · rcases ih h with h' | h'
        · exact Or.inl h'
        · exact Or.inr (List.mem_cons_of_mem c h')

lemma mem_toggleWanted (cardId : String) (col : List OwnedCardInfo)
    (x : OwnedCardInfo) (hx : x ∈ toggleWanted col cardId) :
    x.cardId = cardId ∨ x ∈ col := by
  induction col with
  | nil =>
    simp only [toggleWanted, List.mem_singleton] at hx
    subst hx
    exact Or.inl rfl
  | cons c rest ih =>
    simp only [toggleWanted] at hx
    by_cases hc : c.cardId == cardId
    · simp only [hc, if_true] at hx
      split at hx
      · exact Or.inr (List.mem_cons_of_mem c hx)
      · rcases List.mem_cons.mp hx with h | h
        · subst h
          exact Or.inl (by simpa using hc)
        · exact Or.inr (List.mem_cons_of_mem c h)
    · simp only [hc, Bool.false_eq_true, if_false] at hx
      rcases List.mem_cons.mp hx with h | h
      · exact Or.inr (h ▸ List.mem_cons_self c rest)
      · rcases ih h with h' | h'
        · exact Or.inl h'
        · exact Or.inr (List.mem_cons_of_mem c h')

lemma NodupIds_setCardQuantitiesGo (cardId : String) (n f : ℚ)
    (col : List OwnedCardInfo) (h : NodupIds col) :
    NodupIds (setCardQuantitiesGo cardId n f col) := by
  induction col with
  | nil =>
    simp only [setCardQuantitiesGo]
    split
    · exact List.Pairwise.nil
    · simp [NodupIds]
  | cons c rest ih =>
    rw [NodupIds, List.pairwise_cons] at h
    simp only [setCardQuantitiesGo]
    by_cases hc : c.cardId == cardId
    · simp only [hc, if_true]
      split
      · exact h.2
      · rw [NodupIds, List.pairwise_cons]
        refine ⟨fun y hy => ?_, h.2⟩
        have : c.cardId ≠ y.cardId := h.1 y hy
        simpa using this
    · simp only [hc, Bool.false_eq_true, if_false]
      rw [NodupIds, List.pairwise_cons]
      refine ⟨fun y hy => ?_, ih h.2⟩
      rcases mem_setCardQuantitiesGo cardId n f rest y hy with h' | h'
      · rw [h']
        simpa using hc
      · exact h.1 y h'

lemma NodupIds_toggleWanted (cardId : String) (col : List OwnedCardInfo)
    (h : NodupIds col) : NodupIds (toggleWanted col cardId) := by
  induction col with
  | nil => simp [toggleWanted, NodupIds]
  | cons c rest ih =>
    rw [NodupIds, List.pairwise_cons] at h
    simp only [toggleWanted]
    by_cases hc : c.cardId == cardId
    · simp only [hc, if_true]
      split
      · exact h.2
      · rw [NodupIds, List.pairwise_cons]
        refine ⟨fun y hy => ?_, h.2⟩
        have : c.cardId ≠ y.cardId := h.1 y hy
        simpa using this
    · simp only [hc, Bool.false_eq_true, if_false]
      rw [NodupIds, List.pairwise_cons]
      refine ⟨fun y hy => ?_, ih h.2⟩
      rcases mem_toggleWanted cardId rest y hy with h' | h'
      · rw [h']
        simpa using hc
      · exact h.1 y h'

lemma NodupIds_filterMap_sanitizeEntry (entries : List RawEntry)
    (h : entries.Pairwise (fun a b => a.cardId ≠ b.cardId)) :
    NodupIds (entries.filterMap sanitizeEntry) := by
  refine List.Pairwise.filterMap sanitizeEntry ?_ h
  intro a a' hne b hb b' hb'
  intro hcontra
  apply hne
  have ha := (sanitizeEntry_spec a b hb).2.1
  have ha' := (sanitizeEntry_spec a' b' hb').2.1
  rw [ha, ha', hcontra]

/-- C5 (amended): `setCardQuantities` and `toggleWanted` preserve
uniqueness of `cardId`s, and `replaceAll` yields unique `cardId`s whenever
the entries of the imported array have pairwise-distinct `cardId` fields;
an import with duplicate ids, however, produces duplicate records. -/
theorem C5_itemId_uniqueness_amended :
    (∀ (col : List OwnedCardInfo) (cardId : String) (n f : JsNum),
      NodupIds col → NodupIds (setCardQuantities col cardId n f)) ∧
    (∀ (col : List OwnedCardInfo) (cardId : String),
      NodupIds col → NodupIds (toggleWanted col cardId)) ∧
    (∀ (col : List OwnedCardInfo) (entries : List RawEntry),
      entries.Pairwise (fun a b => a.cardId ≠ b.cardId) →
      NodupIds (runReplaceAll col (ImportData.arr entries))) :=
  ⟨fun col cardId _ _ h => NodupIds_setCardQuantitiesGo cardId _ _ col h,
   fun col cardId h => NodupIds_toggleWanted cardId col h,
   fun _ entries h => NodupIds_filterMap_sanitizeEntry entries h⟩

/-- Witness for C5 at concrete inputs. -/
theorem C5_itemId_uniqueness_amended_witness :
    (NodupIds [⟨"a", 1, 0, false⟩] ∧
      NodupIds (setCardQuantities [⟨"a", 1, 0, false⟩] "b" (some 1) (some 0))) ∧
    NodupIds (toggleWanted [⟨"a", 1, 0, false⟩] "b") ∧
    NodupIds (runReplaceAll []
      (ImportData.arr [⟨true, some "a", some 1, some 0, false⟩,
        ⟨true, some "b", some 2, some 0, false⟩])) :=
  ⟨⟨by decide,
    C5_itemId_uniqueness_amended.1 [⟨"a", 1, 0, false⟩] "b" (some 1) (some 0) (by decide)⟩,
   C5_itemId_uniqueness_amended.2.1 [⟨"a", 1, 0, false⟩] "b" (by decide),
   C5_itemId_uniqueness_amended.2.2 []
     [⟨true, some "a", some 1, some 0, false⟩, ⟨true, some "b", some 2, some 0, false⟩]
     (by decide)⟩

/-- Counterexample for C5 as stated: a reachable ledger (produced by
`replaceAll` on an array with duplicate ids) carries two records with
`cardId = "a"`. -/
theorem C5_counterexample :
    Reachable dupState ∧ ¬NodupIds dupState :=
  ⟨reachable_dupState, by decide⟩

lemma toggleWanted_absent (cardId : String) (col : List OwnedCardInfo)
    (h : ∀ c ∈ col, (c.cardId == cardId) = false) :
    toggleWanted col cardId = col ++ [⟨cardId, 0, 0, true⟩] := by
  induction col with
  | nil => rfl
  | cons c rest ih =>
    have hc := h c (List.mem_cons_self c rest)
    simp only [toggleWanted, hc, Bool.false_eq_true, if_false, List.cons_append,
      List.cons.injEq, true_and]
    exact ih (fun x hx => h x (List.mem_cons_of_mem c hx))

lemma getCard_append_of_no_match (col : List OwnedCardInfo) (x : OwnedCardInfo)
    (cardId : String) (h : ∀ c ∈ col, (c.cardId == cardId) = false) :
    getCard (col ++ [x]) cardId = if x.cardId == cardId then some x else none := by
  induction col with
  | nil => simp [getCard_nil, getCard_cons]
  | cons c rest ih =>
    have hc := h c (List.mem_cons_self c rest)
    rw [List.cons_append, getCard_cons]
    simp only [hc, Bool.false_eq_true, if_false]
    exact ih (fun y hy => h y (List.mem_cons_of_mem c hy))

/-- C6 (amended): on a ledger satisfying the pruning invariant in which
each `cardId` occurs at most once — both hold for every state reachable
without duplicate-id imports — `toggleWanted` is its own inverse for the
observable record of the toggled id. -/
theorem C6_toggleWanted_involution (col : List OwnedCardInfo) (cardId : String)
    (hp : Pruned col) (hn : NodupIds col) :
    getCard (toggleWanted (toggleWanted col cardId) cardId) cardId =
      getCard col cardId := by
  induction col with
  | nil =>
    simp [toggleWanted, getCard_cons, getCard_nil]
  | cons c rest ih =>
    rw [Pruned_cons] at hp
    rw [NodupIds, List.pairwise_cons] at hn
    by_cases hc : c.cardId == cardId
    · have hcid : c.cardId = cardId := by simpa using hc
      have hrest : ∀ y ∈ rest, (y.cardId == cardId) = false := by
        intro y hy
        have := hn.1 y hy
        rw [hcid] at this
        simpa [beq_eq_false_iff_ne] using fun he => this he.symm
      by_cases hg : c.wanted = true ∧ c.normalQty = 0 ∧ c.foilQty = 0
      · rw [show toggleWanted (c :: rest) cardId = rest from by
          simp only [toggleWanted, hc, if_true]
          exact if_pos hg]
        rw [toggleWanted_absent cardId rest hrest]
        rw [getCard_append_of_no_match rest _ cardId hrest]
        have hceq : c = ⟨cardId, 0, 0, true⟩ := by
          obtain ⟨c1, c2, c3, c4⟩ := c
          simp only [OwnedCardInfo.mk.injEq]
          exact ⟨hcid, hg.2.1, hg.2.2, hg.1⟩
        rw [getCard_cons]
        simp [hc, hceq]
      · have hg2 : ¬((!c.wanted) = true ∧ c.normalQty = 0 ∧ c.foilQty = 0) := by
          intro hcontra
          obtain ⟨hw, hn0, hf0⟩ := hcontra
          have hwf : c.wanted = false := by simpa using hw
          exact hp.1 ⟨hn0, hf0, hwf⟩
        rw [show toggleWanted (c :: rest) cardId =
            ⟨c.cardId, c.normalQty, c.foilQty, !c.wanted⟩ :: rest from by
          simp only [toggleWanted, hc, if_true]
          exact if_neg hg]
        rw [show toggleWanted (⟨c.cardId, c.normalQty, c.foilQty, !c.wanted⟩ :: rest) cardId =
            ⟨c.cardId, c.normalQty, c.foilQty, !!c.wanted⟩ :: rest from by
          simp only [toggleWanted, hc, if_true, if_neg hg2]]
        rw [getCard_cons, getCard_cons]
        simp only [hc, if_true, Bool.not_not]
    · simp only [toggleWanted, hc, Bool.false_eq_true, if_false]
      rw [getCard_cons, getCard_cons]
      simp only [hc, Bool.false_eq_true, if_false]
      exact ih hp.2 hn.2

/-- Witness for C6: toggling a wanted-flag twice on a concrete owned record
restores it. -/
theorem C6_toggleWanted_involution_witness :
    (Pruned [⟨"a", 2, 0, false⟩] ∧ NodupIds [⟨"a", 2, 0, false⟩]) ∧
    getCard (toggleWanted (toggleWanted [⟨"a", 2, 0, false⟩] "a") "a") "a" =
      getCard [⟨"a", 2, 0, false⟩] "a" :=
  ⟨⟨by decide, by decide⟩,
   C6_toggleWanted_involution [⟨"a", 2, 0, false⟩] "a" (by decide) (by decide)⟩

/-- The reachable duplicate-id state with a wanted-only record in front. -/
def dupWantedState : List OwnedCardInfo :=
  [⟨"a", 0, 0, true⟩, ⟨"a", 1, 0, false⟩]

/-- The import payload producing `dupWantedState`. -/
def dupWantedImport : ImportData :=
  ImportData.arr
    [⟨true, some "a", some 0, some 0, true⟩, ⟨true, some "a", some 1, some 0, false⟩]

lemma reachable_dupWantedState : Reachable dupWantedState := by
  have h := Reachable.step [] (Op.replace dupWantedImport) Reachable.init
  have he : applyOp [] (Op.replace dupWantedImport) = dupWantedState := by decide
  exact he ▸ h

/-- Counterexample for C6 as stated ("for every ledger state"): double
toggling fails to restore the record both on a reachable pruned state with
a duplicated id, and on a duplicate-free state violating the pruning
invariant — so both amending hypotheses are needed. -/
theorem C6_counterexample :
    (Pruned dupWantedState ∧ Reachable dupWantedState ∧
      getCard (toggleWanted (toggleWanted dupWantedState "a") "a") "a" ≠
        getCard dupWantedState "a") ∧
    (NodupIds [⟨"a", 0, 0, false⟩] ∧
      getCard (toggleWanted (toggleWanted [⟨"a", 0, 0, false⟩] "a") "a") "a" ≠
        getCard [⟨"a", 0, 0, false⟩] "a") :=
  ⟨⟨by decide, reachable_dupWantedState, by decide⟩, ⟨by decide, by decide⟩⟩

lemma jsClamp_of_nonneg (q : ℚ) (h : 0 ≤ q) : jsClamp (some q) = q := by
  simp [jsClamp, jsOrZero, max_eq_right h]

lemma sanitizeEntry_toRaw (c : OwnedCardInfo) (hid : c.cardId ≠ "")
    (hn : 0 ≤ c.normalQty) (hf : 0 ≤ c.foilQty) :
    sanitizeEntry (toRaw c) =
      if c.normalQty = 0 ∧ c.foilQty = 0 ∧ c.wanted = false then none else some c := by
  unfold sanitizeEntry toRaw
  simp only [Bool.true_eq_false, if_false]
  rw [if_neg (by simpa using hid)]
  rw [jsClamp_of_nonneg _ hn, jsClamp_of_nonneg _ hf]

lemma keep_bool_iff (c : OwnedCardInfo) :
    (!(c.normalQty == 0 && c.foilQty == 0 && !c.wanted)) = true ↔
      ¬(c.normalQty = 0 ∧ c.foilQty = 0 ∧ c.wanted = false) := by
  simp [Bool.not_eq_true', Bool.and_eq_true, Bool.not_eq_true]
  tauto

lemma runReplaceAll_getAll (col : List OwnedCardInfo)
    (h : ∀ c ∈ col, c.cardId ≠ "" ∧ 0 ≤ c.normalQty ∧ 0 ≤ c.foilQty) :
    runReplaceAll col (ImportData.arr ((getAll col).map toRaw)) = pruneList col := by
  simp only [runReplaceAll, replaceAll, getAll]
  induction col with
  | nil => rfl
  | cons c rest ih =>
    obtain ⟨hid, hn, hf⟩ := h c (List.mem_cons_self c rest)
    have hrest : ∀ x ∈ rest, x.cardId ≠ "" ∧ 0 ≤ x.normalQty ∧ 0 ≤ x.foilQty :=
      fun x hx => h x (List.mem_cons_of_mem c hx)
    simp only [List.map_cons, List.filterMap_cons]
    rw [sanitizeEntry_toRaw c hid hn hf]
    by_cases hz : c.normalQty = 0 ∧ c.foilQty = 0 ∧ c.wanted = false
    · rw [if_pos hz]
      have hb : (!(c.normalQty == 0 && c.foilQty == 0 && !c.wanted)) = false := by
        simp [hz.1, hz.2.1, hz.2.2]
      simp only [pruneList, List.filter_cons, hb, Bool.false_eq_true, if_false]
      exact ih hrest
    · rw [if_neg hz]
      have hb : (!(c.normalQty == 0 && c.foilQty == 0 && !c.wanted)) = true :=
        (keep_bool_iff c).mpr hz
      simp only [pruneList, List.filter_cons, hb, if_true]
      rw [ih hrest]
      rfl

lemma pruneList_eq_self (col : List OwnedCardInfo) (h : Pruned col) :
    pruneList col = col := by
  rw [pruneList, List.filter_eq_self]
  intro c hc
  exact (keep_bool_iff c).mpr (h c hc)

/-- C7 (amended): for every ledger whose records carry a non-empty id and
non-negative quantities, `replaceAll(getAll())` rebuilds exactly the ledger
minus its pruning-invariant violations; on a ledger already satisfying the
pruning invariant it is the identity. -/
theorem C7_replaceAll_getAll_idempotent (col : List OwnedCardInfo)
    (h : ∀ c ∈ col, c.cardId ≠ "" ∧ 0 ≤ c.normalQty ∧ 0 ≤ c.foilQty) :
    runReplaceAll col (ImportData.arr ((getAll col).map toRaw)) = pruneList col ∧
    (Pruned col →
      runReplaceAll col (ImportData.arr ((getAll col).map toRaw)) = col) := by
  refine ⟨runReplaceAll_getAll col h, fun hp => ?_⟩
  rw [runReplaceAll_getAll col h, pruneList_eq_self col hp]

/-- Witness for C7 at a concrete two-record ledger. -/
theorem C7_replaceAll_getAll_idempotent_witness :
    (∀ c ∈ ([⟨"a", 2, 1, false⟩, ⟨"b", 0, 0, true⟩] : List OwnedCardInfo),
      c.cardId ≠ "" ∧ 0 ≤ c.normalQty ∧ 0 ≤ c.foilQty) ∧
    runReplaceAll [⟨"a", 2, 1, false⟩, ⟨"b", 0, 0, true⟩]
      (ImportData.arr ((getAll [⟨"a", 2, 1, false⟩, ⟨"b", 0, 0, true⟩]).map toRaw)) =
      [⟨"a", 2, 1, false⟩, ⟨"b", 0, 0, true⟩] :=
  ⟨by decide,
   (C7_replaceAll_getAll_idempotent [⟨"a", 2, 1, false⟩, ⟨"b", 0, 0, true⟩]
     (by decide)).2 (by decide)⟩

/-- Counterexample for C7 as stated: a reachable record with the empty
string as id is dropped by the round trip although pruning keeps it; a
record with a negative quantity (possible in an arbitrary ledger state) is
altered rather than kept.  Both amending hypotheses are therefore needed. -/
theorem C7_counterexample :
    (Reachable [⟨"", 1, 0, false⟩] ∧
      runReplaceAll [⟨"", 1, 0, false⟩]
        (ImportData.arr ((getAll [⟨"", 1, 0, false⟩]).map toRaw)) = [] ∧
      pruneList [⟨"", 1, 0, false⟩] = [⟨"", 1, 0, false⟩]) ∧
    (runReplaceAll [⟨"a", -1, 2, false⟩]
        (ImportData.arr ((getAll [⟨"a", -1, 2, false⟩]).map toRaw)) =
        [⟨"a", 0, 2, false⟩] ∧
      pruneList [⟨"a", -1, 2, false⟩] = [⟨"a", -1, 2, false⟩]) := by
  refine ⟨⟨?_, by decide, by decide⟩, by decide, by decide⟩
  have h := Reachable.step [] (Op.set "" (some 1) (some 0)) Reachable.init
  have he : applyOp [] (Op.set "" (some 1) (some 0)) = [⟨"", 1, 0, false⟩] := by decide
  exact he ▸ h

lemma setCardQuantities_update (col : List OwnedCardInfo) (cardId : String)
    (n f : JsNum) (c : OwnedCardInfo) (hc : getCard col cardId = some c)
    (hkeep : ¬(jsClamp n = 0 ∧ jsClamp f = 0 ∧ c.wanted = false)) :
    getCard (setCardQuantities col cardId n f) cardId =
      some ⟨cardId, jsClamp n, jsClamp f, c.wanted⟩ := by
  simp only [setCardQuantities]
  induction col with
  | nil => simp [getCard_nil] at hc
  | cons d rest ih =>
    rw [getCard_cons] at hc
    by_cases hd : d.cardId == cardId
    · rw [if_pos hd] at hc
      have hde : d = c := by simpa using hc
      subst hde
      have hdid : d.cardId = cardId := by simpa using hd
      simp only [setCardQuantitiesGo, hd, if_true]
      rw [if_neg (by exact fun hcontra => hkeep ⟨hcontra.1, hcontra.2.1, hcontra.2.2⟩)]
      rw [getCard_cons]
      simp [hd, hdid]
    · rw [if_neg (by simpa using hd)] at hc
      simp only [setCardQuantitiesGo, hd, Bool.false_eq_true, if_false]
      rw [getCard_cons]
      simp only [hd, Bool.false_eq_true, if_false]
      exact ih hc

lemma setCardQuantities_insert (col : List OwnedCardInfo) (cardId : String)
    (n f : JsNum) (hc : getCard col cardId = none)
    (hnz : ¬(jsClamp n = 0 ∧ jsClamp f = 0)) :
    getCard (setCardQuantities col cardId n f) cardId =
      some ⟨cardId, jsClamp n, jsClamp f, false⟩ := by
  simp only [setCardQuantities]
  induction col with
  | nil =>
    simp only [setCardQuantitiesGo]
    rw [if_neg hnz, getCard_cons]
    simp
  | cons d rest ih =>
    rw [getCard_cons] at hc
    by_cases hd : d.cardId == cardId
    · rw [if_pos hd] at hc
      exact absurd hc (by simp)
    · rw [if_neg (by simpa using hd)] at hc
      simp only [setCardQuantitiesGo, hd, Bool.false_eq_true, if_false]
      rw [getCard_cons]
      simp only [hd, Bool.false_eq_true, if_false]
      exact ih hc

/-- C4 (amended): both quantity arguments are clamped to non-negative
values before being stored — negative or non-numeric (`NaN`) input coerces
to `0` and is never an error, but fractional numeric input is stored
unchanged rather than truncated to an integer; the same clamp is applied to
the quantities of entries accepted by `replaceAll`. -/
theorem C4_quantity_clamping :
    (∀ x : JsNum, 0 ≤ jsClamp x) ∧
    jsClamp none = 0 ∧
    (∀ q : ℚ, q ≤ 0 → jsClamp (some q) = 0) ∧
    (∀ q : ℚ, 0 ≤ q → jsClamp (some q) = q) ∧
    (∀ (col : List OwnedCardInfo) (cardId : String) (n f : JsNum) (c : OwnedCardInfo),
      getCard col cardId = some c →
      ¬(jsClamp n = 0 ∧ jsClamp f = 0 ∧ c.wanted = false) →
      getCard (setCardQuantities col cardId n f) cardId =
        some ⟨cardId, jsClamp n, jsClamp f, c.wanted⟩) ∧
    (∀ (col : List OwnedCardInfo) (cardId : String) (n f : JsNum),
      getCard col cardId = none →
      ¬(jsClamp n = 0 ∧ jsClamp f = 0) →
      getCard (setCardQuantities col cardId n f) cardId =
        some ⟨cardId, jsClamp n, jsClamp f, false⟩) ∧
    (∀ (e : RawEntry) (r : OwnedCardInfo), sanitizeEntry e = some r →
      r.normalQty = jsClamp e.normalQty ∧ r.foilQty = jsClamp e.foilQty) :=
  ⟨fun x => le_max_left 0 (jsOrZero x),
   rfl,
   fun q hq => by simp [jsClamp, jsOrZero, max_eq_left hq],
   fun q hq => jsClamp_of_nonneg q hq,
   setCardQuantities_update,
   setCardQuantities_insert,
   fun e r h => ⟨(sanitizeEntry_spec e r h).2.2.2.1, (sanitizeEntry_spec e r h).2.2.2.2.1⟩⟩

/-- Witness for C4: negative input coerces to zero, non-negative input is
kept, and both the update and insert paths store the clamped values. -/
theorem C4_quantity_clamping_witness :
    ((-3 : ℚ) ≤ 0 ∧ jsClamp (some (-3)) = 0) ∧
    ((0 : ℚ) ≤ 2 ∧ jsClamp (some 2) = 2) ∧
    (getCard [⟨"a", 1, 1, true⟩] "a" = some ⟨"a", 1, 1, true⟩ ∧
      getCard (setCardQuantities [⟨"a", 1, 1, true⟩] "a" (some (-2)) none) "a" =
        some ⟨"a", jsClamp (some (-2)), jsClamp none, true⟩) ∧
    (getCard [] "a" = none ∧
      getCard (setCardQuantities [] "a" (some 4) (some (-1))) "a" =
        some ⟨"a", jsClamp (some 4), jsClamp (some (-1)), false⟩) ∧
    (sanitizeEntry ⟨true, some "a", some (-7), some 3, false⟩ =
        some ⟨"a", 0, 3, false⟩ ∧
      (0 : ℚ) = jsClamp (some (-7)) ∧ (3 : ℚ) = jsClamp (some 3)) :=
  ⟨⟨by decide, C4_quantity_clamping.2.2.1 (-3) (by decide)⟩,
   ⟨by decide, C4_quantity_clamping.2.2.2.1 2 (by decide)⟩,
   ⟨by decide,
    C4_quantity_clamping.2.2.2.2.1 [⟨"a", 1, 1, true⟩] "a" (some (-2)) none
      ⟨"a", 1, 1, true⟩ (by decide) (by decide)⟩,
   ⟨by decide,
    C4_quantity_clamping.2.2.2.2.2.1 [] "a" (some 4) (some (-1)) (by decide) (by decide)⟩,
   by
     have h := C4_quantity_clamping.2.2.2.2.2.2 ⟨true, some "a", some (-7), some 3, false⟩
       ⟨"a", 0, 3, false⟩ (by decide)
     exact ⟨by decide, h.1, h.2⟩⟩

/-- Counterexample for C4 as stated: the fractional input `5/2` is stored
as `5/2`, which is not an integer — quantities are clamped to non-negative
values, not to non-negative integers. -/
theorem C4_counterexample :
    getCard (setCardQuantities [] "a" (some (5 / 2)) (some 0)) "a" =
      some ⟨"a", 5 / 2, 0, false⟩ ∧
    ¬∃ k : ℤ, ((5 : ℚ) / 2) = (k : ℚ) := by
  constructor
  · have h1 : jsClamp (some ((5 : ℚ) / 2)) = 5 / 2 := jsClamp_of_nonneg _ (by norm_num)
    have h0 : jsClamp (some (0 : ℚ)) = 0 := by simp [jsClamp, jsOrZero]
    simp only [setCardQuantities, h1, h0, setCardQuantitiesGo]
    rw [if_neg (by norm_num), getCard_cons]
    simp
  · rintro ⟨k, hk⟩
    have h2 : (5 : ℚ) = 2 * (k : ℚ) := by
      field_simp at hk
      linarith
    have h3 : (5 : ℤ) = 2 * k := by exact_mod_cast h2
    omega

/-- C3: `replaceAll` is all-or-nothing — a non-array input raises the
validation error and leaves the ledger exactly as it was, while an array
input replaces the ledger by the whole sanitised set (accepted entries have
a string id, clamped quantities and a coerced `wanted` flag, and
zero-invariant entries are dropped silently). -/
theorem C3_replaceAll_all_or_nothing :
    (∀ col : List OwnedCardInfo,
      replaceAll ImportData.notArray =
        Except.error "El JSON importado no es un array valido." ∧
      runReplaceAll col ImportData.notArray = col) ∧
    (∀ (col : List OwnedCardInfo) (entries : List RawEntry),
      replaceAll (ImportData.arr entries) =
        Except.ok (entries.filterMap sanitizeEntry) ∧
      runReplaceAll col (ImportData.arr entries) = entries.filterMap sanitizeEntry) ∧
    (∀ (e : RawEntry) (r : OwnedCardInfo), sanitizeEntry e = some r →
      e.isObject = true ∧ e.cardId = some r.cardId ∧
      r.normalQty = jsClamp e.normalQty ∧ r.foilQty = jsClamp e.foilQty ∧
      r.wanted = e.wanted ∧ ¬(r.normalQty = 0 ∧ r.foilQty = 0 ∧ r.wanted = false)) :=
  ⟨fun _ => ⟨rfl, rfl⟩,
   fun _ _ => ⟨rfl, rfl⟩,
   fun e r h =>
     let s := sanitizeEntry_spec e r h
     ⟨s.1, s.2.1, s.2.2.2.1, s.2.2.2.2.1, s.2.2.2.2.2.1, s.2.2.2.2.2.2⟩⟩

/-- Witness for C3: a rejected object input leaves a concrete one-record
ledger untouched, a concrete array input (with one malformed entry and one
zero-invariant entry) replaces it by exactly the sanitised set, and the
sanitiser's contract holds at a concrete accepted entry. -/
theorem C3_replaceAll_all_or_nothing_witness :
    (replaceAll ImportData.notArray =
        Except.error "El JSON importado no es un array valido." ∧
      runReplaceAll [⟨"b", 1, 0, false⟩] ImportData.notArray = [⟨"b", 1, 0, false⟩]) ∧
    runReplaceAll [⟨"b", 1, 0, false⟩]
      (ImportData.arr
        [⟨true, some "a", some 2, some (-1), false⟩,
         ⟨false, some "x", some 1, some 1, false⟩,
         ⟨true, none, some 1, some 1, false⟩,
         ⟨true, some "z", some 0, some 0, false⟩]) =
      [⟨"a", 2, 0, false⟩] ∧
    (sanitizeEntry ⟨true, some "a", some 2, some (-1), false⟩ =
        some ⟨"a", 2, 0, false⟩ ∧
      (⟨true, some "a", some 2, some (-1), false⟩ : RawEntry).isObject = true ∧
      ¬((2 : ℚ) = 0 ∧ (0 : ℚ) = 0 ∧ false = false)) :=
  ⟨C3_replaceAll_all_or_nothing.1 [⟨"b", 1, 0, false⟩],
   by
     rw [(C3_replaceAll_all_or_nothing.2.1 [⟨"b", 1, 0, false⟩]
       [⟨true, some "a", some 2, some (-1), false⟩,
        ⟨false, some "x", some 1, some 1, false⟩,
        ⟨true, none, some 1, some 1, false⟩,
        ⟨true, some "z", some 0, some 0, false⟩]).2]
     decide,
   by
     have h := C3_replaceAll_all_or_nothing.2.2 ⟨true, some "a", some 2, some (-1), false⟩
       ⟨"a", 2, 0, false⟩ (by decide)
     exact ⟨by decide, h.1, by decide⟩⟩

lemma foldl_add_eq_sum (g : MtgCard → ℚ) (l : List MtgCard) (a : ℚ) :
    l.foldl (fun s x => s + g x) a = a + (l.map g).sum := by
  induction l generalizing a with
  | nil => simp
  | cons x xs ih => simp [List.foldl_cons, ih, add_assoc]

/-- C1: with the ownership filter at `missing`, `foilOwned` or `wanted`,
the filtered-view value is the sum over the filtered cards of the larger of
the two prices (absent prices as `0`); with the filter at `all` or `owned`
it is the sum of `normalQty * priceNonFoil + foilQty * priceFoil`. -/
theorem C1_filtered_value_policy (cards : List MtgCard) (col : List OwnedCardInfo)
    (ow : OwnershipFilter) :
    ((ow = OwnershipFilter.missing ∨ ow = OwnershipFilter.foilOwned ∨
        ow = OwnershipFilter.wanted) →
      filteredCollectionValueEur cards col ow =
        (cards.map (fun card =>
          max (card.eurPriceNonFoil.getD 0) (card.eurPriceFoil.getD 0))).sum) ∧
    ((ow = OwnershipFilter.all ∨ ow = OwnershipFilter.owned) →
      filteredCollectionValueEur cards col ow =
        (cards.map (fun card =>
          getNormalQty col card.id * card.eurPriceNonFoil.getD 0 +
            getFoilQty col card.id * card.eurPriceFoil.getD 0)).sum) := by
  constructor
  · intro h
    have hs : shouldShowTotalFilterStats ow = true := by
      rcases h with h | h | h <;> subst h <;> decide
    simp only [filteredCollectionValueEur, hs, if_true]
    rw [foldl_add_eq_sum, zero_add]
  · intro h
    have hs : shouldShowTotalFilterStats ow = false := by
      rcases h with h | h <;> subst h <;> decide
    simp only [filteredCollectionValueEur, hs, Bool.false_eq_true, if_false]
    rw [foldl_add_eq_sum, zero_add]

/-- Witness for C1 at the spec's own scenario (filter `missing`, prices
`(1, 5)` and `(2, absent)`), and at filter `owned` with a one-record
ledger. -/
theorem C1_filtered_value_policy_witness :
    ((OwnershipFilter.missing = OwnershipFilter.missing ∨
        OwnershipFilter.missing = OwnershipFilter.foilOwned ∨
        OwnershipFilter.missing = OwnershipFilter.wanted) ∧
      filteredCollectionValueEur
        [⟨"x", "", "1", "common", "", true, true, some 1, some 5⟩,
         ⟨"y", "", "2", "rare", "", true, true, some 2, none⟩]
        [] OwnershipFilter.missing =
        (([⟨"x", "", "1", "common", "", true, true, some 1, some 5⟩,
           ⟨"y", "", "2", "rare", "", true, true, some 2, none⟩] :
            List MtgCard).map (fun card =>
          max (card.eurPriceNonFoil.getD 0) (card.eurPriceFoil.getD 0))).sum) ∧
    ((OwnershipFilter.owned = OwnershipFilter.all ∨
        OwnershipFilter.owned = OwnershipFilter.owned) ∧
      filteredCollectionValueEur
        [⟨"x", "", "1", "common", "", true, true, some 1, some 5⟩]
        [⟨"x", 2, 1, false⟩] OwnershipFilter.owned =
        (([⟨"x", "", "1", "common", "", true, true, some 1, some 5⟩] :
            List MtgCard).map (fun card =>
          getNormalQty [⟨"x", 2, 1, false⟩] card.id * card.eurPriceNonFoil.getD 0 +
            getFoilQty [⟨"x", 2, 1, false⟩] card.id * card.eurPriceFoil.getD 0)).sum) :=
  ⟨⟨Or.inl rfl,
    (C1_filtered_value_policy
      [⟨"x", "", "1", "common", "", true, true, some 1, some 5⟩,
       ⟨"y", "", "2", "rare", "", true, true, some 2, none⟩]
      [] OwnershipFilter.missing).1 (Or.inl rfl)⟩,
   ⟨Or.inr rfl,
    (C1_filtered_value_policy
      [⟨"x", "", "1", "common", "", true, true, some 1, some 5⟩]
      [⟨"x", 2, 1, false⟩] OwnershipFilter.owned).2 (Or.inr rfl)⟩⟩

lemma applyStage_eq_filter (criteria : FilterCriteria)
    (getOwnershipInfo : String → OwnershipInfo) (cards : List MtgCard) (s : Stage) :
    applyStage criteria getOwnershipInfo cards s =
      cards.filter (fun card => stagePred criteria getOwnershipInfo s card) := by
  cases s with
  | search =>
    simp only [applyStage, filterBySearchTerm, stagePred]
    by_cases h : (jsToLower (jsTrim criteria.searchTerm) == "") = true
    · simp [h]
    · simp only [Bool.not_eq_true] at h
      simp [h]
  | rarity =>
    simp only [applyStage, filterByRarity, stagePred]
    by_cases h : criteria.rarity = RarityFilter.all
    · simp [h]
    · have hb : (criteria.rarity == RarityFilter.all) = false := by
        simpa [beq_eq_false_iff_ne] using h
      rw [if_neg h]
      simp [hb]
  | ownership =>
    simp only [applyStage, filterByOwnership, stagePred]
    by_cases h : criteria.ownership = OwnershipFilter.all
    · have hb : (criteria.ownership == OwnershipFilter.all) = true := by simp [h]
      rw [if_pos h]
      simp [hb]
    · have hb : (criteria.ownership == OwnershipFilter.all) = false := by
        simpa [beq_eq_false_iff_ne] using h
      rw [if_neg h]
      simp [hb]
  | print =>
    simp only [applyStage, filterByPrint, stagePred]
    by_cases h : criteria.print = PrintFilter.all
    · have hb : (criteria.print == PrintFilter.all) = true := by simp [h]
      rw [if_pos h]
      simp [hb]
    · have hb : (criteria.print == PrintFilter.all) = false := by
        simpa [beq_eq_false_iff_ne] using h
      rw [if_neg h]
      cases hp : criteria.print with
      | all => exact absurd hp h
      | hasFoil =>
        simp [hp, show (PrintFilter.hasFoil == PrintFilter.all) = false from rfl]
      | hasNonFoil =>
        simp [hp, show (PrintFilter.hasNonFoil == PrintFilter.all) = false from rfl]

lemma applyStages_eq_filter (criteria : FilterCriteria)
    (getOwnershipInfo : String → OwnershipInfo) (order : List Stage)
    (cards : List MtgCard) :
    applyStages criteria getOwnershipInfo order cards =
      cards.filter (fun card =>
        order.all (fun s => stagePred criteria getOwnershipInfo s card)) := by
  induction order generalizing cards with
  | nil =>
    simp [applyStages]
  | cons s rest ih =>
    simp only [applyStages, List.foldl_cons]
    have : List.foldl (applyStage criteria getOwnershipInfo)
        (applyStage criteria getOwnershipInfo cards s) rest =
        applyStages criteria getOwnershipInfo rest
          (applyStage criteria getOwnershipInfo cards s) := rfl
    rw [this, ih, applyStage_eq_filter, List.filter_filter]
    apply List.filter_congr
    intro card _
    rw [List.all_cons]
    exact Bool.and_comm _ _

lemma perm_all_eq (f : Stage → Bool) (l₁ l₂ : List Stage) (h : l₁.Perm l₂) :
    l₁.all f = l₂.all f := by
  induction h with
  | nil => rfl
  | cons x _ ih => simp [List.all_cons, ih]
  | swap x y l => simp [List.all_cons, Bool.and_left_comm]
  | trans _ _ ih₁ ih₂ => rw [ih₁, ih₂]

lemma filterCards_eq_applyStages (cards : List MtgCard) (criteria : FilterCriteria)
    (getOwnershipInfo : String → OwnershipInfo) :
    filterCards cards criteria getOwnershipInfo =
      applyStages criteria getOwnershipInfo
        [Stage.search, Stage.rarity, Stage.ownership, Stage.print] cards := rfl

/-- C8: the filter pipeline returns exactly the cards satisfying the
conjunction of the four stage predicates, and running the four stages in
any permuted order yields the same result as `filterCards`. -/
theorem C8_filter_conjunction_order_independent (cards : List MtgCard)
    (criteria : FilterCriteria) (getOwnershipInfo : String → OwnershipInfo)
    (order : List Stage)
    (h : order.Perm [Stage.search, Stage.rarity, Stage.ownership, Stage.print]) :
    filterCards cards criteria getOwnershipInfo =
      cards.filter (fun card =>
        stagePred criteria getOwnershipInfo Stage.search card &&
        stagePred criteria getOwnershipInfo Stage.rarity card &&
        stagePred criteria getOwnershipInfo Stage.ownership card &&
        stagePred criteria getOwnershipInfo Stage.print card) ∧
    applyStages criteria getOwnershipInfo order cards =
      filterCards cards criteria getOwnershipInfo := by
  constructor
  · rw [filterCards_eq_applyStages, applyStages_eq_filter]
    apply List.filter_congr
    intro card _
    simp [List.all_cons, Bool.and_assoc]
  · rw [filterCards_eq_applyStages, applyStages_eq_filter, applyStages_eq_filter]
    apply List.filter_congr
    intro card _
    exact perm_all_eq _ order _ h

/-- Witness for C8: a concrete three-card catalog filtered with every stage
active, evaluated for the reversed stage order. -/
theorem C8_filter_conjunction_order_independent_witness :
    ([Stage.print, Stage.ownership, Stage.rarity, Stage.search].Perm
      [Stage.search, Stage.rarity, Stage.ownership, Stage.print]) ∧
    (filterCards
        [⟨"x", "Fire", "1", "common", "", true, true, none, none⟩,
         ⟨"y", "Firaga", "2", "rare", "", true, false, none, none⟩,
         ⟨"z", "Water", "3", "common", "", true, true, none, none⟩]
        ⟨"fir", RarityFilter.common, OwnershipFilter.owned, PrintFilter.hasFoil⟩
        (fun cardId => ⟨cardId == "x", false, false⟩) =
      [⟨"x", "Fire", "1", "common", "", true, true, none, none⟩].filter
        (fun card =>
          stagePred ⟨"fir", RarityFilter.common, OwnershipFilter.owned, PrintFilter.hasFoil⟩
            (fun cardId => ⟨cardId == "x", false, false⟩) Stage.search card &&
          stagePred ⟨"fir", RarityFilter.common, OwnershipFilter.owned, PrintFilter.hasFoil⟩
            (fun cardId => ⟨cardId == "x", false, false⟩) Stage.rarity card &&
          stagePred ⟨"fir", RarityFilter.common, OwnershipFilter.owned, PrintFilter.hasFoil⟩
            (fun cardId => ⟨cardId == "x", false, false⟩) Stage.ownership card &&
          stagePred ⟨"fir", RarityFilter.common, OwnershipFilter.owned, PrintFilter.hasFoil⟩
            (fun cardId => ⟨cardId == "x", false, false⟩) Stage.print card) ∧
      applyStages ⟨"fir", RarityFilter.common, OwnershipFilter.owned, PrintFilter.hasFoil⟩
        (fun cardId => ⟨cardId == "x", false, false⟩)
        [Stage.print, Stage.ownership, Stage.rarity, Stage.search]
        [⟨"x", "Fire", "1", "common", "", true, true, none, none⟩,
         ⟨"y", "Firaga", "2", "rare", "", true, false, none, none⟩,
         ⟨"z", "Water", "3", "common", "", true, true, none, none⟩] =
      filterCards
        [⟨"x", "Fire", "1", "common", "", true, true, none, none⟩,
         ⟨"y", "Firaga", "2", "rare", "", true, false, none, none⟩,
         ⟨"z", "Water", "3", "common", "", true, true, none, none⟩]
        ⟨"fir", RarityFilter.common, OwnershipFilter.owned, PrintFilter.hasFoil⟩
        (fun cardId => ⟨cardId == "x", false, false⟩)) := by
  constructor
  · decide
  · have h := C8_filter_conjunction_order_independent
      [⟨"x", "Fire", "1", "common", "", true, true, none, none⟩,
       ⟨"y", "Firaga", "2", "rare", "", true, false, none, none⟩,
       ⟨"z", "Water", "3", "common", "", true, true, none, none⟩]
      ⟨"fir", RarityFilter.common, OwnershipFilter.owned, PrintFilter.hasFoil⟩
      (fun cardId => ⟨cardId == "x", false, false⟩)
      [Stage.print, Stage.ownership, Stage.rarity, Stage.search]
      (by decide)
    refine ⟨?_, h.2⟩
    rw [h.1]
    decide

lemma cmpNat_lt_iff (a b : ℕ) : cmpNat a b = Ordering.lt ↔ a < b := by
  unfold cmpNat
  split_ifs <;> simp <;> omega

lemma cmpNat_eq_iff (a b : ℕ) : cmpNat a b = Ordering.eq ↔ a = b := by
  unfold cmpNat
  split_ifs <;> simp <;> omega

lemma cmpNat_swap (a b : ℕ) : (cmpNat a b).swap = cmpNat b a := by
  unfold cmpNat
  split_ifs <;> first | rfl | omega

lemma cmpCharList_swap : ∀ as bs : List Char, (cmpCharList as bs).swap = cmpCharList bs as := by
  intro as
  induction as with
  | nil => intro bs; cases bs <;> rfl
  | cons a as ih =>
    intro bs
    cases bs with
    | nil => rfl
    | cons b bs =>
      simp only [cmpCharList]
      rw [← cmpNat_swap a.toNat b.toNat]
      rcases h : cmpNat a.toNat b.toNat with _ | _ | _
      · rfl
      · exact ih bs
      · rfl

lemma cmpCharList_eq_trans : ∀ as bs cs : List Char,
    cmpCharList as bs = Ordering.eq → cmpCharList bs cs = cmpCharList as cs := by
  intro as
  induction as with
  | nil =>
    intro bs cs h
    cases bs with
    | nil => rfl
    | cons b bs => simp [cmpCharList] at h
  | cons a as ih =>
    intro bs cs h
    cases bs with
    | nil => simp [cmpCharList] at h
    | cons b bs =>
      simp only [cmpCharList] at h
      rcases hab : cmpNat a.toNat b.toNat with _ | _ | _ <;> rw [hab] at h
      · simp at h
      · have habn : a.toNat = b.toNat := (cmpNat_eq_iff _ _).mp hab
        cases cs with
        | nil => rfl
        | cons c cs =>
          simp only [cmpCharList, habn]
          rcases hbc : cmpNat b.toNat c.toNat with _ | _ | _ <;> simp [ih bs cs h]
      · simp at h

lemma cmpCharList_lt_trans : ∀ as bs cs : List Char,
    cmpCharList as bs = Ordering.lt → cmpCharList bs cs = Ordering.lt →
    cmpCharList as cs = Ordering.lt := by
  intro as
  induction as with
  | nil =>
    intro bs cs h1 h2
    cases bs with
    | nil => simp [cmpCharList] at h1
    | cons b bs =>
      cases cs with
      | nil => simp [cmpCharList] at h2
      | cons c cs => rfl
  | cons a as ih =>
    intro bs cs h1 h2
    cases bs with
    | nil => simp [cmpCharList] at h1
    | cons b bs =>
      cases cs with
      | nil => simp [cmpCharList] at h2
      | cons c cs =>
        simp only [cmpCharList] at h1 h2 ⊢
        rcases hab : cmpNat a.toNat b.toNat with _ | _ | _ <;> rw [hab] at h1
        · rcases hbc : cmpNat b.toNat c.toNat with _ | _ | _ <;> rw [hbc] at h2
          · have : a.toNat < c.toNat :=
              lt_trans ((cmpNat_lt_iff _ _).mp hab) ((cmpNat_lt_iff _ _).mp hbc)
            rw [(cmpNat_lt_iff _ _).mpr this]
          · have hbcn : b.toNat = c.toNat := (cmpNat_eq_iff _ _).mp hbc
            rw [(cmpNat_lt_iff _ _).mpr (hbcn ▸ (cmpNat_lt_iff _ _).mp hab)]
          · simp at h2
        · have habn : a.toNat = b.toNat := (cmpNat_eq_iff _ _).mp hab
          rcases hbc : cmpNat b.toNat c.toNat with _ | _ | _ <;> rw [hbc] at h2
          · rw [(cmpNat_lt_iff _ _).mpr (habn ▸ (cmpNat_lt_iff _ _).mp hbc)]
          · have hbcn : b.toNat = c.toNat := (cmpNat_eq_iff _ _).mp hbc
            rw [(cmpNat_eq_iff _ _).mpr (habn.trans hbcn)]
            exact ih bs cs h1 h2
          · simp at h2
        · simp at h1

lemma cmpTok_swap (a b : NToken) : (cmpTok a b).swap = cmpTok b a := by
  cases a <;> cases b
  · exact cmpNat_swap _ _
  · rfl
  · rfl
  · exact cmpCharList_swap _ _

lemma cmpTok_eq_trans (a b c : NToken) (h : cmpTok a b = Ordering.eq) :
    cmpTok b c = cmpTok a c := by
  cases a <;> cases b <;> simp [cmpTok] at h ⊢
  · rename_i va vb
    have : va = vb := (cmpNat_eq_iff _ _).mp h
    cases c <;> simp [cmpTok, this]
  · rename_i sa sb
    cases c with
    | num v => simp [cmpTok]
    | str sc => exact cmpCharList_eq_trans sa sb sc h

lemma cmpTok_lt_trans (a b c : NToken) (h1 : cmpTok a b = Ordering.lt)
    (h2 : cmpTok b c = Ordering.lt) : cmpTok a c = Ordering.lt := by
  cases a <;> cases b <;> cases c <;> simp [cmpTok] at h1 h2 ⊢
  · exact (cmpNat_lt_iff _ _).mpr
      (lt_trans ((cmpNat_lt_iff _ _).mp h1) ((cmpNat_lt_iff _ _).mp h2))
  · exact cmpCharList_lt_trans _ _ _ h1 h2

lemma cmpTokens_swap : ∀ xs ys : List NToken, (cmpTokens xs ys).swap = cmpTokens ys xs := by
  intro xs
  induction xs with
  | nil => intro ys; cases ys <;> rfl
  | cons x xs ih =>
    intro ys
    cases ys with
    | nil => rfl
    | cons y ys =>
      simp only [cmpTokens]
      rw [← cmpTok_swap x y]
      rcases h : cmpTok x y with _ | _ | _
      · rfl
      · exact ih ys
      · rfl

lemma cmpTokens_eq_trans : ∀ xs ys zs : List NToken,
    cmpTokens xs ys = Ordering.eq → cmpTokens ys zs = cmpTokens xs zs := by
  intro xs
  induction xs with
  | nil =>
    intro ys zs h
    cases ys with
    | nil => rfl
    | cons y ys => simp [cmpTokens] at h
  | cons x xs ih =>
    intro ys zs h
    cases ys with
    | nil => simp [cmpTokens] at h
    | cons y ys =>
      simp only [cmpTokens] at h
      rcases hxy : cmpTok x y with _ | _ | _ <;> rw [hxy] at h
      · simp at h
      · cases zs with
        | nil => rfl
        | cons z zs =>
          simp only [cmpTokens]
          rw [← cmpTok_eq_trans x y z hxy]
          rcases hyz : cmpTok y z with _ | _ | _ <;> simp [ih ys zs h]
      · simp at h

lemma cmpTokens_lt_trans : ∀ xs ys zs : List NToken,
    cmpTokens xs ys = Ordering.lt → cmpTokens ys zs = Ordering.lt →
    cmpTokens xs zs = Ordering.lt := by
  intro xs
  induction xs with
  | nil =>
    intro ys zs h1 h2
    cases ys with
    | nil => simp [cmpTokens] at h1
    | cons y ys =>
      cases zs with
      | nil => simp [cmpTokens] at h2
      | cons z zs => rfl
  | cons x xs ih =>
    intro ys zs h1 h2
    cases ys with
    | nil => simp [cmpTokens] at h1
    | cons y ys =>
      cases zs with
      | nil => simp [cmpTokens] at h2
      | cons z zs =>
        simp only [cmpTokens] at h1 h2 ⊢
        rcases hxy : cmpTok x y with _ | _ | _ <;> rw [hxy] at h1
        · rcases hyz : cmpTok y z with _ | _ | _ <;> rw [hyz] at h2
          · rw [cmpTok_lt_trans x y z hxy hyz]
          · have hzx : cmpTok z x = cmpTok y x := cmpTok_eq_trans y z x hyz
            have hyx : cmpTok y x = Ordering.gt := by
              rw [← cmpTok_swap x y, hxy]
              rfl
            have hxz : cmpTok x z = Ordering.lt := by
              rw [← cmpTok_swap z x, hzx, hyx]
              rfl
            rw [hxz]
          · simp at h2
        · rcases hyz : cmpTok y z with _ | _ | _ <;> rw [hyz] at h2
          · rw [cmpTok_eq_trans x y z hxy] at hyz
            rw [hyz]
          · rw [cmpTok_eq_trans x y z hxy] at hyz
            rw [hyz]
            exact ih ys zs h1 h2
          · simp at h2
        · simp at h1

lemma cmpTokens_le_trans (xs ys zs : List NToken)
    (h1 : cmpTokens xs ys ≠ Ordering.gt) (h2 : cmpTokens ys zs ≠ Ordering.gt) :
    cmpTokens xs zs ≠ Ordering.gt := by
  rcases hxy : cmpTokens xs ys with _ | _ | _
  · rcases hyz : cmpTokens ys zs with _ | _ | _
    · rw [cmpTokens_lt_trans xs ys zs hxy hyz]
      simp
    · have hzy : cmpTokens zs ys = Ordering.eq := by
        rw [← cmpTokens_swap ys zs, hyz]
        rfl
      have hcomp := cmpTokens_eq_trans zs ys xs hzy
      have hyx : cmpTokens ys xs = Ordering.gt := by
        rw [← cmpTokens_swap xs ys, hxy]
        rfl
      have hzx : cmpTokens zs xs = Ordering.gt := by rw [← hcomp, hyx]
      have hxz : cmpTokens xs zs = Ordering.lt := by
        rw [← cmpTokens_swap zs xs, hzx]
        rfl
      rw [hxz]
      simp
    · exact absurd hyz h2
  · rw [← cmpTokens_eq_trans xs ys zs hxy]
    exact h2
  · exact absurd hxy h1

instance : IsTotal MtgCard collectorNumberLe where
  total a b := by
    unfold collectorNumberLe localeCompareNumericEn
    rcases h : cmpTokens (tokenize a.collectorNumber) (tokenize b.collectorNumber)
      with _ | _ | _
    · exact Or.inl (by simp [h])
    · exact Or.inl (by simp [h])
    · refine Or.inr ?_
      have hswap := cmpTokens_swap (tokenize a.collectorNumber) (tokenize b.collectorNumber)
      rw [h] at hswap
      rw [← hswap]
      decide

instance : IsTrans MtgCard collectorNumberLe where
  trans a b c hab hbc :=
    cmpTokens_le_trans (tokenize a.collectorNumber) (tokenize b.collectorNumber)
      (tokenize c.collectorNumber) hab hbc

/-- C9: the collector-number sort is a numeric-aware string order: for
every card list the sort returns a permutation of its input that is sorted
under the collector-number comparator (and agrees with the `sortCards`
switch); the comparator orders "9" before "10" and "10" before "10a", and
sorting the collector numbers ["2", "10", "1a", "10a"] ascending yields
["1a", "2", "10", "10a"]. -/
theorem C9_collector_number_sort :
    (∀ cards : List MtgCard,
      (sortCardsByCollectorNumber cards).Perm cards ∧
      List.Sorted collectorNumberLe (sortCardsByCollectorNumber cards)) ∧
    (∀ cards : List MtgCard,
      sortCards SortBy.collectorNumber cards = sortCardsByCollectorNumber cards) ∧
    localeCompareNumericEn "9" "10" = Ordering.lt ∧
    localeCompareNumericEn "10" "10a" = Ordering.lt ∧
    (sortCardsByCollectorNumber
      [⟨"c2", "", "2", "common", "", true, true, none, none⟩,
       ⟨"c10", "", "10", "common", "", true, true, none, none⟩,
       ⟨"c1a", "", "1a", "common", "", true, true, none, none⟩,
       ⟨"c10a", "", "10a", "common", "", true, true, none, none⟩]).map
        (fun c => c.collectorNumber) = ["1a", "2", "10", "10a"] :=
  ⟨fun cards =>
    ⟨List.perm_insertionSort collectorNumberLe cards,
     List.sorted_insertionSort collectorNumberLe cards⟩,
   fun _ => rfl, by decide, by decide, by decide⟩

example : setCardQuantities [] "a" (some 2) (some 1) = [⟨"a", 2, 1, false⟩] := by decide
example : setCardQuantities [⟨"a", 2, 1, false⟩] "a" (some 0) (some 0) = [] := by decide
example : setCardQuantities [] "a" (some (-3)) none = [] := by decide
example : toggleWanted (toggleWanted [] "a") "a" = [] := by decide
example :
    runReplaceAll [] (ImportData.arr [⟨true, some "a", some 1, some 0, false⟩,
      ⟨true, some "a", some 2, some 0, false⟩]) =
      [⟨"a", 1, 0, false⟩, ⟨"a", 2, 0, false⟩] := by decide
example : runReplaceAll [⟨"b", 1, 0, false⟩] ImportData.notArray = [⟨"b", 1, 0, false⟩] := by
  decide
example : localeCompareNumericEn "9" "10" = Ordering.lt := by decide
example : localeCompareNumericEn "10" "10a" = Ordering.lt := by decide
example : localeCompareNumericEn "2" "1a" = Ordering.gt := by decide
example :
    (sortCardsByCollectorNumber
      [⟨"c2", "", "2", "common", "", true, true, none, none⟩,
       ⟨"c10", "", "10", "common", "", true, true, none, none⟩,
       ⟨"c1a", "", "1a", "common", "", true, true, none, none⟩,
       ⟨"c10a", "", "10a", "common", "", true, true, none, none⟩]).map (fun c => c.collectorNumber) =
      ["1a", "2", "10", "10a"] := by decide
example :
    filterBySearchTerm
      [⟨"x", "Fire", "1", "common", "", true, true, none, none⟩,
       ⟨"y", "Water", "2", "rare", "", true, true, none, none⟩] "  FIR " =
      [⟨"x", "Fire", "1", "common", "", true, true, none, none⟩] := by decide
example :
    filteredCollectionValueEur
      [⟨"x", "", "1", "common", "", true, true, some 1, some 5⟩,
       ⟨"y", "", "2", "rare", "", true, true, some 2, none⟩] [] OwnershipFilter.missing = 7 := by
  norm_num [filteredCollectionValueEur, shouldShowTotalFilterStats, List.foldl]

end MtgFF
